import Mathlib

/-!
# Shallow embedding of the GCC map-file visualizer (`vis.py`)

The source program is a single-pass line-oriented parser (`MapFileParser.parse`)
over the text of a linker map file, plus pure reporting functions
(`get_summary`, `get_top_contributors`, `get_all_contributors`,
`Visualizer.print_section_summary`, `print_top_contributors`,
`print_detailed_breakdown`, `print_memory_map`, `draw_bar`).

Modelling conventions:

* A Python string is a `List Char`; lines are modelled *without* their trailing
  newline.  This is equivalent to Python's `readlines` lines (which keep the
  `'\n'`): in the two regexes the trailing newline can never be consumed
  productively (`.` excludes `'\n'`, and `$` matches just before a trailing
  newline), so matching `L ++ "\n"` in Python coincides with matching `L`
  here with `$` read as end-of-string.
* Python's `re` character class `\w` is modelled by its ASCII fragment
  `[A-Za-z0-9_]`, and `\s` by Python's six ASCII whitespace characters.
* Greedy regex matching is implemented without backtracking wherever the
  character classes on the two sides of a boundary are disjoint (name run /
  whitespace, whitespace / `0x`, hex digits / whitespace), which makes greedy
  matching deterministic there.  The one place Python's engine really
  backtracks is the final `\s+(.+)$` of the sub-entry regex when the remainder
  is all whitespace: there `\s+` gives back one character and the captured
  group is the last whitespace character.  `tailFile` implements exactly that.
* Python `dict` / `defaultdict` values are insertion-ordered association
  lists; assignment to an existing key updates in place (keeping the
  position), assignment to a fresh key appends.
* Python's stable sort (`sorted(..., key, reverse=True)`) is modelled by
  `List.insertionSort` with the corresponding total preorder: both are stable
  sorts for the same preorder, hence compute the same list.
* Real (float) arithmetic in percentages is modelled exactly over `ℚ`;
  `int(...)` truncation of a nonnegative real is `Nat` floor division.
-/

namespace GccMapVis

/-- Python `\s` (ASCII fragment): space, tab, newline, carriage return,
vertical tab, form feed. -/
def isSpaceCh (c : Char) : Bool :=
  c = ' ' || c = '\t' || c = '\n' || c = '\r' || c = '\x0b' || c = '\x0c'

/-- Python `\w` (ASCII fragment): letters, digits, underscore. -/
def isWordCh (c : Char) : Bool :=
  c.isAlphanum || c = '_'

/-- The class `[\w.]` used inside section names. -/
def isWordDotCh (c : Char) : Bool :=
  isWordCh c || c = '.'

/-- `[0-9a-fA-F]`. -/
def isHexCh (c : Char) : Bool :=
  c.isDigit || ('a' ≤ c && c ≤ 'f') || ('A' ≤ c && c ≤ 'F')

/-- Value of one hexadecimal digit. -/
def hexDigitVal (c : Char) : Nat :=
  if c.isDigit then c.toNat - 48
  else if 'a' ≤ c && c ≤ 'f' then c.toNat - 87
  else if 'A' ≤ c && c ≤ 'F' then c.toNat - 55
  else 0

/-- `int(s, 16)` on a digit string. -/
def hexVal (l : List Char) : Nat :=
  l.foldl (fun acc c => acc * 16 + hexDigitVal c) 0

/-- Match `\s+` at the front (at least one whitespace character), returning the
rest.  Deterministic greedy: in both regexes the element following `\s+`
starts with `.` or `0`, never whitespace. -/
def skipSpaces1 : List Char → Option (List Char)
  | [] => none
  | c :: rest => if isSpaceCh c then some (rest.dropWhile isSpaceCh) else none

/-- Match `0x[0-9a-fA-F]+` at the front, returning its value and the rest. -/
def parseHex0x : List Char → Option (Nat × List Char)
  | '0' :: 'x' :: rest =>
    let ds := rest.takeWhile isHexCh
    if ds = [] then none else some (hexVal ds, rest.dropWhile isHexCh)
  | _ => none

/-- Match `\.\w+[\w.]*` at the front: a dot, a word character, then the maximal
run of `[\w.]`.  Returns the matched name and the rest. -/
def parseSectionName : List Char → Option (List Char × List Char)
  | [] => none
  | c0 :: rest =>
    if c0 = '.' then
      match rest with
      | [] => none
      | c :: rest' =>
        if isWordCh c then
          some ('.' :: c :: rest'.takeWhile isWordDotCh, rest'.dropWhile isWordDotCh)
        else none
    else none

/-- The common core `(\.\w+[\w.]*)\s+(0x[0-9a-fA-F]+)\s+(0x[0-9a-fA-F]+)` of
both regexes: name, address, size, and the unconsumed remainder. -/
def parseNameAddrSize (l : List Char) : Option (List Char × Nat × Nat × List Char) :=
  match parseSectionName l with
  | none => none
  | some (name, r1) =>
    match skipSpaces1 r1 with
    | none => none
    | some r2 =>
      match parseHex0x r2 with
      | none => none
      | some (addr, r3) =>
        match skipSpaces1 r3 with
        | none => none
        | some r4 =>
          match parseHex0x r4 with
          | none => none
          | some (size, r5) => some (name, addr, size, r5)

/-- `re.match(r'^(\.\w+[\w.]*)\s+(0x[0-9a-fA-F]+)\s+(0x[0-9a-fA-F]+)', line)`:
the main-section header pattern (anchored at the start, no end anchor). -/
def matchMainHeader (l : List Char) : Option (String × Nat × Nat) :=
  match parseNameAddrSize l with
  | some (name, addr, size, _) => some (String.mk name, addr, size)
  | none => none

/-- Does `pat` occur at the very front of `l`? -/
def startsWithChars : List Char → List Char → Bool
  | [], _ => true
  | _ :: _, [] => false
  | p :: ps, c :: cs => p = c && startsWithChars ps cs

/-- Match `load address (0x[0-9a-fA-F]+)` at the front of `l`. -/
def matchLoadAt (l : List Char) : Option Nat :=
  if startsWithChars "load address ".data l then
    match parseHex0x (l.drop 13) with
    | some (v, _) => some v
    | none => none
  else none

/-- `re.search(r'load address (0x[0-9a-fA-F]+)', line)`: leftmost occurrence
anywhere in the line. -/
def searchLoadAddr : List Char → Option Nat
  | [] => none
  | c :: rest =>
    match matchLoadAt (c :: rest) with
    | some v => some v
    | none => searchLoadAddr rest

/-- The tail `\s+(.+)$` of the sub-entry regex, applied to the remainder after
the size field; returns the captured fourth group (not yet stripped).
Python semantics, newline-stripped lines:
* if the remainder starts with whitespace and contains a non-whitespace
  character, the group is the remainder minus its maximal whitespace run;
* if the remainder is all whitespace of length ≥ 2, the engine backtracks
  `\s+` by one character and the group is the last whitespace character;
* otherwise there is no match. -/
def tailFile (r : List Char) : Option (List Char) :=
  match r with
  | [] => none
  | c :: rest =>
    if isSpaceCh c then
      match (c :: rest).dropWhile isSpaceCh with
      | g :: gs => some (g :: gs)
      | [] =>
        match rest with
        | [] => none
        | d :: ds => some [List.getLastD (d :: ds) d]
    else none

/-- `re.match(r'^\s+(\.\w+[\w.]*)\s+(0x[0-9a-fA-F]+)\s+(0x[0-9a-fA-F]+)\s+(.+)$', line)`:
the sub-entry pattern.  Returns (subsection, address, size, raw fourth group). -/
def matchSubEntry (l : List Char) : Option (String × Nat × Nat × List Char) :=
  match l with
  | [] => none
  | c :: rest =>
    if isSpaceCh c then
      match parseNameAddrSize ((c :: rest).dropWhile isSpaceCh) with
      | none => none
      | some (name, addr, size, r) =>
        match tailFile r with
        | none => none
        | some g => some (String.mk name, addr, size, g)
    else none

/-- Python `str.strip()`: drop whitespace from both ends. -/
def pyStrip (l : List Char) : List Char :=
  ((l.dropWhile isSpaceCh).reverse.dropWhile isSpaceCh).reverse

/-- `line.startswith(' ')` (exactly a space, not general whitespace). -/
def startsWithSpaceChar : List Char → Bool
  | c :: _ => c = ' '
  | [] => false

/-! ## Insertion-ordered dictionaries (Python `dict` / `defaultdict`) -/

/-- `k in d` / `d.get(k)`: first (= unique) binding of `k`. -/
def dictLookup {β : Type _} : List (String × β) → String → Option β
  | [], _ => none
  | (k', v) :: rest, k => if k' = k then some v else dictLookup rest k

/-- `d[k] = v`: update in place if present (keeping the position), else
append. -/
def dictSet {β : Type _} : List (String × β) → String → β → List (String × β)
  | [], k, v => [(k, v)]
  | (k', v') :: rest, k, v =>
    if k' = k then (k, v) :: rest else (k', v') :: dictSet rest k v

/-- `defaultdict(int)`: `d[k] += v`. -/
def dictAdd : List (String × Nat) → String → Nat → List (String × Nat)
  | [], k, v => [(k, v)]
  | (k', v') :: rest, k, v =>
    if k' = k then (k', v' + v) :: rest else (k', v') :: dictAdd rest k v

/-! ## The parsed model -/

/-- One record of `section_addresses`: `{'vma': …, 'lma': …, 'size': …}`. -/
structure AddrInfo where
  vma : Nat
  lma : Nat
  size : Nat
deriving DecidableEq, Repr

/-- One element of `self.sections[section]`. -/
structure ContributionEntry where
  subsection : String
  address : Nat
  size : Nat
  file : String
deriving DecidableEq, Repr

/-- `defaultdict(list)`: `d[k].append(e)` (creates the key if absent). -/
def dictAppendEntry : List (String × List ContributionEntry) → String →
    ContributionEntry → List (String × List ContributionEntry)
  | [], k, e => [(k, [e])]
  | (k', es) :: rest, k, e =>
    if k' = k then (k', es ++ [e]) :: rest else (k', es) :: dictAppendEntry rest k e

/-- The state built by `MapFileParser.parse` (the unused `archive_members`
field is omitted). -/
structure MapFileParser where
  sections : List (String × List ContributionEntry) := []
  total_sizes : List (String × Nat) := []
  section_addresses : List (String × AddrInfo) := []
deriving DecidableEq, Repr

/-- One iteration of the `while` loop of `MapFileParser.parse`: the state is
the `current_section` cursor together with the model built so far. -/
def parseStep (st : Option String × MapFileParser) (line : String) :
    Option String × MapFileParser :=
  let cur := st.1
  let m := st.2
  match matchMainHeader line.data, startsWithSpaceChar line.data with
  | some (name, vma, size), false =>
    -- main-section header branch (`if main_section_match and not line.startswith(' ')`)
    let lma := match searchLoadAddr line.data with
      | some a => a
      | none => vma
    let m' :=
      if 0 < size then
        { m with
          total_sizes := dictSet m.total_sizes name size,
          section_addresses := dictSet m.section_addresses name ⟨vma, lma, size⟩ }
      else m
    (some name, m')
  | _, _ =>
    match cur with
    | none => (cur, m)
    | some cs =>
      match matchSubEntry line.data with
      | some (subsection, address, size, g) =>
        if 0 < size then
          let e : ContributionEntry := ⟨subsection, address, size, String.mk (pyStrip g)⟩
          (cur, { m with sections := dictAppendEntry m.sections cs e })
        else (cur, m)
      | none => (cur, m)

/-- `MapFileParser.parse`, as a fold over the (newline-stripped) lines of the
file, starting from the empty model and an unset cursor. -/
def parse (lines : List String) : MapFileParser :=
  (lines.foldl parseStep (none, {})).2

/-! ## Accessors (`get_summary`, `get_top_contributors`, `get_all_contributors`) -/

/-- `get_summary`: the section-size summary. -/
def get_summary (m : MapFileParser) : List (String × Nat) :=
  m.total_sizes

/-- The descending-by-size preorder used by `sorted(…, key=λx. x[1], reverse=True)`
on (file, size) pairs. -/
def bySizeDesc (a b : String × Nat) : Prop := b.2 ≤ a.2

instance : DecidableRel bySizeDesc := fun a b => Nat.decLe b.2 a.2

instance : IsTotal (String × Nat) bySizeDesc :=
  ⟨fun a b => (Nat.le_total b.2 a.2).imp id id⟩

instance : IsTrans (String × Nat) bySizeDesc :=
  ⟨fun _ _ _ h1 h2 => Nat.le_trans h2 h1⟩

/-- `get_top_contributors(section, limit)`: group the section's entries by
file (summing sizes), sort descending by size (stably), take `limit`. -/
def get_top_contributors (m : MapFileParser) (sec : String) (limit : Nat) :
    List (String × Nat) :=
  match dictLookup m.sections sec with
  | none => []
  | some items =>
    let file_sizes := items.foldl (fun d it => dictAdd d it.file it.size) []
    (List.insertionSort bySizeDesc file_sizes).take limit

/-- The descending-by-size preorder on entries used by `get_all_contributors`. -/
def entryBySizeDesc (a b : ContributionEntry) : Prop := b.size ≤ a.size

instance : DecidableRel entryBySizeDesc := fun a b => Nat.decLe b.size a.size

instance : IsTotal ContributionEntry entryBySizeDesc :=
  ⟨fun a b => (Nat.le_total b.size a.size).imp id id⟩

instance : IsTrans ContributionEntry entryBySizeDesc :=
  ⟨fun _ _ _ h1 h2 => Nat.le_trans h2 h1⟩

/-- `get_all_contributors(section)`: the raw entries sorted descending by
size (stably). -/
def get_all_contributors (m : MapFileParser) (sec : String) :
    List ContributionEntry :=
  match dictLookup m.sections sec with
  | none => []
  | some items => List.insertionSort entryBySizeDesc items

/-! ## `Visualizer`: the reporting operations

Each `print_*` function is modelled by a total function returning `Option` of
the report's semantic content; `none` is the explicit informational "no data"
message (the function printing it and returning normally in the source),
`some` carries the numeric/textual content of the rows that are printed.
Purely cosmetic details (colors, column widths, the `format_size` rendering,
long-name truncation) are not part of the content and are omitted. -/

/-- The `filled` local of `draw_bar`: `int((value / max_value) * width)`,
i.e. the floor of the exact ratio (float division modelled exactly). -/
def drawBarFilled (value max_value width : Nat) : Nat :=
  value * width / max_value

/-- `draw_bar(value, max_value, width)`: `""` when `max_value == 0`, else
`filled` copies of `#` followed by `width - filled` copies of `-`. -/
def draw_bar (value max_value width : Nat) : String :=
  if max_value = 0 then ""
  else
    String.mk (List.replicate (drawBarFilled value max_value width) '#' ++
      List.replicate (width - drawBarFilled value max_value width) '-')

/-- `max(summary.values()) if summary else 1` (`max` of a nonempty list of
naturals is its fold with `max` from 0). -/
def maxValues (summary : List (String × Nat)) : Nat :=
  if summary = [] then 1 else (summary.map (·.2)).foldl Nat.max 0

/-- One printed row of `print_section_summary`. -/
structure SummaryRow where
  sec : String
  size : Nat
  percentage : ℚ
  bar : String
deriving DecidableEq, Repr

/-- `print_section_summary`: `none` is the "No sections found in map file"
message; otherwise the rows (sorted descending by size) and the printed
total. -/
def print_section_summary (m : MapFileParser) : Option (List SummaryRow × Nat) :=
  let summary := get_summary m
  if summary = [] then none
  else
    let total_size : Nat := (summary.map (·.2)).sum
    let sorted_sections := List.insertionSort bySizeDesc summary
    let max_size := maxValues summary
    some (sorted_sections.map (fun p =>
      { sec := p.1, size := p.2,
        percentage := if 0 < total_size then (p.2 : ℚ) / (total_size : ℚ) * 100 else 0,
        bar := draw_bar p.2 max_size 40 }), total_size)

/-- One printed row of `print_top_contributors`. -/
structure ContribRow where
  rank : Nat
  size : Nat
  percentage : ℚ
  file : String
deriving DecidableEq, Repr

/-- `print_top_contributors(section, limit)`: `none` is the
"No data found for section" message; otherwise the ranked rows, each
percentage computed against the sum of the (already limited) contributor
sizes. -/
def print_top_contributors (m : MapFileParser) (sec : String) (limit : Nat) :
    Option (List ContribRow) :=
  let contributors := get_top_contributors m sec limit
  if contributors = [] then none
  else
    let total : Nat := (contributors.map (·.2)).sum
    some (contributors.enum.map (fun p =>
      { rank := p.1 + 1, size := p.2.2,
        percentage := if 0 < total then (p.2.2 : ℚ) / (total : ℚ) * 100 else 0,
        file := p.2.1 }))

/-- `print_detailed_breakdown(section, limit)`: `none` is the
"No data found for section" message; otherwise the entries sorted descending
by size, truncated to `limit`. -/
def print_detailed_breakdown (m : MapFileParser) (sec : String) (limit : Nat) :
    Option (List ContributionEntry) :=
  let items := get_all_contributors m sec
  if items = [] then none
  else some (items.take limit)

/-! ## `print_memory_map` -/

/-- One element of `all_sections` in `print_memory_map` (the source's `end`
key is called `stop` here, `end` being a Lean keyword). -/
structure MemSection where
  name : String
  start : Nat
  stop : Nat
  size : Nat
  vma : Nat
  lma : Nat
deriving DecidableEq, Repr

/-- One printed item of the memory map: a gap record (with its bounds and
size) or a section record. -/
inductive MemEvent where
  | gap (gstart gstop gsize : Nat) : MemEvent
  | sec (s : MemSection) : MemEvent
deriving DecidableEq, Repr

/-- The ascending-by-start preorder of `sorted(all_sections, key=λx. x['start'])`. -/
def byStartAsc (a b : MemSection) : Prop := a.start ≤ b.start

instance : DecidableRel byStartAsc := fun a b => Nat.decLe a.start b.start

instance : IsTotal MemSection byStartAsc :=
  ⟨fun a b => (Nat.le_total a.start b.start).imp id id⟩

instance : IsTrans MemSection byStartAsc :=
  ⟨fun _ _ _ h1 h2 => Nat.le_trans h1 h2⟩

/-- The main loop of `print_memory_map` over the sorted section list: emit a
gap record exactly when `start > prev_end`, then the section; `prev_end`
advances unconditionally to the section's `end`; `total_used` accumulates
every size, `total_gaps` every emitted gap size. -/
def memWalk : List MemSection → Nat → List MemEvent × Nat × Nat
  | [], _ => ([], 0, 0)
  | s :: rest, prev_end =>
    let (evs, used, gaps) := memWalk rest s.stop
    if prev_end < s.start then
      (MemEvent.gap prev_end s.start (s.start - prev_end) :: MemEvent.sec s :: evs,
        s.size + used, (s.start - prev_end) + gaps)
    else (MemEvent.sec s :: evs, s.size + used, gaps)

/-- The semantic content printed by `print_memory_map`. -/
structure MemMapOutput where
  events : List MemEvent
  regionStart : Nat
  regionEnd : Nat
  totalUsed : Nat
  totalGaps : Nat
deriving DecidableEq, Repr

/-- The `all_sections` local of `print_memory_map`: every entry of
`section_addresses` normalized to a (start, end) interval, using VMA or LMA
per the caller-selected mode. -/
def allSections (m : MapFileParser) (use_vma : Bool) : List MemSection :=
  m.section_addresses.map (fun p =>
    let addr := if use_vma then p.2.vma else p.2.lma
    ({ name := p.1, start := addr, stop := addr + p.2.size, size := p.2.size,
       vma := p.2.vma, lma := p.2.lma } : MemSection))

/-- `print_memory_map(use_vma)`: `none` is the
"No memory layout information found" message; otherwise the section/gap
items in print order with the region bounds and the used/gap totals.
`prev_end` is initialized to the first (sorted) section's start. -/
def print_memory_map (m : MapFileParser) (use_vma : Bool) : Option MemMapOutput :=
  if m.section_addresses = [] then none
  else
    let all_sections := allSections m use_vma
    -- source: `if not all_sections: return` (unreachable here, kept for fidelity)
    match List.insertionSort byStartAsc all_sections with
    | [] => none
    | s0 :: rest =>
      let region_start := s0.start
      let region_end := (List.getLastD (s0 :: rest) s0).stop
      let w := memWalk (s0 :: rest) region_start
      some { events := w.1, regionStart := region_start, regionEnd := region_end,
             totalUsed := w.2.1, totalGaps := w.2.2 }

/-! ## Auxiliary definitions used by the statements -/

/-- The per-file total of a section's entries: the sum of the sizes of the
entries attributed to file `f`. -/
def sumFilter (f : String) (items : List ContributionEntry) : Nat :=
  ((items.filter (fun it => it.file = f)).map ContributionEntry.size).sum

/-- The gap records among the printed memory-map items, as
(gap start, gap end, gap size) triples. -/
def walkGaps (evs : List MemEvent) : List (Nat × Nat × Nat) :=
  evs.filterMap (fun e =>
    match e with
    | MemEvent.gap a b sz => some (a, b, sz)
    | MemEvent.sec _ => none)

/-- The gaps the specification expects from a walk starting at `prev`:
pairing every section with its predecessor's `end` (the first with `prev`),
a gap appears exactly when the section's start exceeds that value, and its
size is the difference. -/
def expectedGaps (prev : Nat) (l : List MemSection) : List (Nat × Nat × Nat) :=
  ((prev :: l.map MemSection.stop).zip l).filterMap (fun p =>
    if p.1 < p.2.start then some (p.1, p.2.start, p.2.start - p.1) else none)

/-! ## Lemmas: dictionaries -/

theorem dictLookup_dictSet_self {β : Type _} (d : List (String × β)) (k : String) (v : β) :
    dictLookup (dictSet d k v) k = some v := by
  induction d with
  | nil => simp [dictSet, dictLookup]
  | cons p rest ih =>
    by_cases h : p.1 = k
    · simp [dictSet, dictLookup, h]
    · simpa [dictSet, dictLookup, h] using ih

theorem dictLookup_dictSet_ne {β : Type _} (d : List (String × β)) (k q : String) (v : β)
    (hq : q ≠ k) : dictLookup (dictSet d k v) q = dictLookup d q := by
  induction d with
  | nil => simp [dictSet, dictLookup, Ne.symm hq]
  | cons p rest ih =>
    by_cases h : p.1 = k
    · simp [dictSet, dictLookup, h, Ne.symm hq]
    · simp only [dictSet, if_neg h, dictLookup]
      by_cases h2 : p.1 = q
      · simp [h2]
      · simp [h2, ih]

theorem dictLookup_dictAdd_self (d : List (String × Nat)) (k : String) (v : Nat) :
    dictLookup (dictAdd d k v) k = some ((dictLookup d k).getD 0 + v) := by
  induction d with
  | nil => simp [dictAdd, dictLookup]
  | cons p rest ih =>
    by_cases h : p.1 = k
    · simp [dictAdd, dictLookup, h]
    · simpa [dictAdd, dictLookup, h] using ih

theorem dictLookup_dictAdd_ne (d : List (String × Nat)) (k q : String) (v : Nat)
    (hq : q ≠ k) : dictLookup (dictAdd d k v) q = dictLookup d q := by
  induction d with
  | nil => simp [dictAdd, dictLookup, Ne.symm hq]
  | cons p rest ih =>
    by_cases h : p.1 = k
    · simp [dictAdd, dictLookup, h, Ne.symm hq]
    · simp only [dictAdd, if_neg h, dictLookup]
      by_cases h2 : p.1 = q
      · simp [h2]
      · simp [h2, ih]

theorem dictLookup_dictAppendEntry_self (d : List (String × List ContributionEntry))
    (k : String) (e : ContributionEntry) :
    dictLookup (dictAppendEntry d k e) k = some ((dictLookup d k).getD [] ++ [e]) := by
  induction d with
  | nil => simp [dictAppendEntry, dictLookup]
  | cons p rest ih =>
    by_cases h : p.1 = k
    · simp [dictAppendEntry, dictLookup, h]
    · simpa [dictAppendEntry, dictLookup, h] using ih

theorem dictLookup_eq_none_iff {β : Type _} (d : List (String × β)) (k : String) :
    dictLookup d k = none ↔ k ∉ d.map Prod.fst := by
  induction d with
  | nil => simp [dictLookup]
  | cons p rest ih =>
    by_cases h : p.1 = k <;> simp [dictLookup, h, ih, eq_comm (a := k)]

theorem dictAdd_keys (d : List (String × Nat)) (k : String) (v : Nat) :
    (dictAdd d k v).map Prod.fst =
      if dictLookup d k = none then d.map Prod.fst ++ [k] else d.map Prod.fst := by
  induction d with
  | nil => simp [dictAdd, dictLookup]
  | cons p rest ih =>
    by_cases h : p.1 = k
    · simp [dictAdd, dictLookup, h]
    · by_cases h2 : dictLookup rest k = none <;>
        simp [dictAdd, dictLookup, h, h2, ih]

theorem dictAdd_keys_nodup (d : List (String × Nat)) (k : String) (v : Nat)
    (hd : (d.map Prod.fst).Nodup) : ((dictAdd d k v).map Prod.fst).Nodup := by
  rw [dictAdd_keys]
  by_cases h : dictLookup d k = none
  · rw [if_pos h]
    have hk : k ∉ d.map Prod.fst := (dictLookup_eq_none_iff d k).mp h
    simp [List.nodup_append, hd, hk]
  · rw [if_neg h]
    exact hd

theorem dictLookup_of_mem_nodup {β : Type _} (d : List (String × β)) (p : String × β)
    (hd : (d.map Prod.fst).Nodup) (hp : p ∈ d) : dictLookup d p.1 = some p.2 := by
  induction d with
  | nil => simp at hp
  | cons q rest ih =>
    rcases List.mem_cons.mp hp with h | h
    · subst h
      simp [dictLookup]
    · have hne : q.1 ≠ p.1 := by
        intro hc
        have : p.1 ∈ rest.map Prod.fst := List.mem_map_of_mem Prod.fst h
        rw [← hc] at this
        exact (List.nodup_cons.mp hd).1 this
      simpa [dictLookup, hne] using ih (List.nodup_cons.mp hd).2 h

/-! ## Lemmas: grouping by file -/

theorem sumFilter_cons (f : String) (it : ContributionEntry) (rest : List ContributionEntry) :
    sumFilter f (it :: rest) =
      if it.file = f then it.size + sumFilter f rest else sumFilter f rest := by
  by_cases h : it.file = f <;> simp [sumFilter, h]

theorem groupFold_lookup (items : List ContributionEntry) (d : List (String × Nat))
    (f : String) :
    dictLookup (items.foldl (fun d it => dictAdd d it.file it.size) d) f =
      match dictLookup d f with
      | some v => some (v + sumFilter f items)
      | none =>
        if items.any (fun it => it.file = f) then some (sumFilter f items) else none := by
  induction items generalizing d with
  | nil =>
    cases hd : dictLookup d f <;> simp [sumFilter, hd]
  | cons it rest ih =>
    rw [List.foldl_cons, ih (dictAdd d it.file it.size)]
    by_cases hf : it.file = f
    · subst hf
      rw [dictLookup_dictAdd_self]
      cases hd : dictLookup d it.file <;>
        simp [sumFilter_cons, hd, Nat.add_assoc, Nat.add_comm it.size]
    · rw [dictLookup_dictAdd_ne d it.file f it.size (Ne.symm (by simpa using hf))]
      cases hd : dictLookup d f <;> simp [sumFilter_cons, hf, hd]

theorem groupFold_keys_nodup (items : List ContributionEntry) (d : List (String × Nat))
    (hd : (d.map Prod.fst).Nodup) :
    (((items.foldl (fun d it => dictAdd d it.file it.size) d)).map Prod.fst).Nodup := by
  induction items generalizing d with
  | nil => exact hd
  | cons it rest ih =>
    exact ih (dictAdd d it.file it.size) (dictAdd_keys_nodup d it.file it.size hd)

/-- Every pair produced by the grouping fold carries exactly the per-file sum
of the grouped entries, and its key is the file of some entry. -/
theorem mem_groupFold (items : List ContributionEntry) (p : String × Nat)
    (hp : p ∈ items.foldl (fun d it => dictAdd d it.file it.size) []) :
    p.2 = sumFilter p.1 items ∧ p.1 ∈ items.map ContributionEntry.file := by
  have hnod := groupFold_keys_nodup items [] (by simp)
  have hlook := dictLookup_of_mem_nodup _ p hnod hp
  rw [groupFold_lookup items [] p.1] at hlook
  simp only [dictLookup] at hlook
  by_cases hany : items.any (fun it => it.file = p.1)
  · rw [if_pos hany] at hlook
    refine ⟨by injection hlook with h; exact h.symm, ?_⟩
    rcases List.any_eq_true.mp hany with ⟨it, hit, hfit⟩
    exact List.mem_map.mpr ⟨it, hit, of_decide_eq_true hfit⟩
  · rw [if_neg hany] at hlook
    exact absurd hlook (by simp)

/-! ## Lemmas: fold with `Nat.max` -/

theorem le_foldl_max_init (l : List Nat) (i : Nat) : i ≤ l.foldl Nat.max i := by
  induction l generalizing i with
  | nil => exact Nat.le_refl i
  | cons b tl ih =>
    exact Nat.le_trans (Nat.le_max_left i b) (ih (Nat.max i b))

theorem le_foldl_max (l : List Nat) (a i : Nat) (ha : a ∈ l) : a ≤ l.foldl Nat.max i := by
  induction l generalizing i with
  | nil => simp at ha
  | cons b tl ih =>
    rcases List.mem_cons.mp ha with h | h
    · subst h
      exact Nat.le_trans (Nat.le_max_right i a) (le_foldl_max_init tl (Nat.max i a))
    · exact ih (Nat.max i b) h

/-! ## Lemmas: shapes of regex matches -/

theorem parseSectionName_shape (l : List Char) (x : List Char × List Char)
    (h : parseSectionName l = some x) : ∃ c rest, l = '.' :: c :: rest := by
  match l with
  | [] => simp [parseSectionName] at h
  | c0 :: rest =>
    by_cases h0 : c0 = '.'
    · subst h0
      match rest with
      | [] => simp [parseSectionName] at h
      | c :: rest' => exact ⟨c, rest', rfl⟩
    · simp [parseSectionName, h0] at h

theorem parseNameAddrSize_sectionName (l : List Char) (x : List Char × Nat × Nat × List Char)
    (h : parseNameAddrSize l = some x) : ∃ y, parseSectionName l = some y := by
  rw [parseNameAddrSize] at h
  cases hy : parseSectionName l with
  | none => rw [hy] at h; exact absurd h (by simp)
  | some y => exact ⟨y, rfl⟩

theorem matchMainHeader_head_dot (l : List Char) (x : String × Nat × Nat)
    (h : matchMainHeader l = some x) : ∃ c rest, l = '.' :: c :: rest := by
  rw [matchMainHeader] at h
  cases hp : parseNameAddrSize l with
  | none => rw [hp] at h; exact absurd h (by simp)
  | some y =>
    rcases parseNameAddrSize_sectionName l y hp with ⟨z, hz⟩
    exact parseSectionName_shape l z hz

theorem startsWithSpaceChar_eq_false_of_header (l : List Char) (x : String × Nat × Nat)
    (h : matchMainHeader l = some x) : startsWithSpaceChar l = false := by
  rcases matchMainHeader_head_dot l x h with ⟨c, rest, rfl⟩
  simp [startsWithSpaceChar]

theorem matchSubEntry_head_space (l : List Char) (x : String × Nat × Nat × List Char)
    (h : matchSubEntry l = some x) : ∃ c rest, l = c :: rest ∧ isSpaceCh c = true := by
  match l with
  | [] => simp [matchSubEntry] at h
  | c :: rest =>
    by_cases hc : isSpaceCh c
    · exact ⟨c, rest, rfl, hc⟩
    · simp [matchSubEntry, hc] at h

theorem matchMainHeader_eq_none_of_subEntry (l : List Char) (x : String × Nat × Nat × List Char)
    (h : matchSubEntry l = some x) : matchMainHeader l = none := by
  rcases matchSubEntry_head_space l x h with ⟨c, rest, rfl, hc⟩
  have hcd : ¬ c = '.' := by
    intro hcontra
    rw [hcontra] at hc
    simp [isSpaceCh] at hc
  rw [matchMainHeader]
  have hps : parseSectionName (c :: rest) = none := by
    simp [parseSectionName, hcd]
  rw [parseNameAddrSize, hps]

/-! ## Lemmas: the memory-map walk -/

theorem memWalk_cons (s : MemSection) (rest : List MemSection) (prev : Nat) :
    memWalk (s :: rest) prev =
      ((if prev < s.start then
          MemEvent.gap prev s.start (s.start - prev) ::
            MemEvent.sec s :: (memWalk rest s.stop).1
        else MemEvent.sec s :: (memWalk rest s.stop).1),
       s.size + (memWalk rest s.stop).2.1,
       (if prev < s.start then (s.start - prev) + (memWalk rest s.stop).2.2
        else (memWalk rest s.stop).2.2)) := by
  rw [memWalk]
  rcases h : memWalk rest s.stop with ⟨evs, used, gaps⟩
  by_cases hc : prev < s.start <;> simp [hc]

theorem expectedGaps_cons (prev : Nat) (s : MemSection) (rest : List MemSection) :
    expectedGaps prev (s :: rest) =
      (if prev < s.start then [(prev, s.start, s.start - prev)] else []) ++
        expectedGaps s.stop rest := by
  by_cases hc : prev < s.start <;> simp [expectedGaps, hc]

theorem walkGaps_memWalk (l : List MemSection) (prev : Nat) :
    walkGaps (memWalk l prev).1 = expectedGaps prev l := by
  induction l generalizing prev with
  | nil => simp [memWalk, walkGaps, expectedGaps]
  | cons s rest ih =>
    rw [memWalk_cons, expectedGaps_cons]
    by_cases hc : prev < s.start <;> simp [hc, walkGaps] at ih ⊢ <;> exact ih s.stop

theorem memWalk_used (l : List MemSection) (prev : Nat) :
    (memWalk l prev).2.1 = (l.map MemSection.size).sum := by
  induction l generalizing prev with
  | nil => simp [memWalk]
  | cons s rest ih => rw [memWalk_cons]; simp [ih s.stop]

theorem memWalk_gapTotal (l : List MemSection) (prev : Nat) :
    (memWalk l prev).2.2 = ((walkGaps (memWalk l prev).1).map (fun g => g.2.2)).sum := by
  induction l generalizing prev with
  | nil => simp [memWalk, walkGaps]
  | cons s rest ih =>
    rw [memWalk_cons]
    by_cases hc : prev < s.start <;> simp [hc, walkGaps, ih s.stop]

theorem mem_expectedGaps (prev : Nat) (l : List MemSection) (g : Nat × Nat × Nat)
    (hg : g ∈ expectedGaps prev l) : g.1 < g.2.1 ∧ g.2.2 = g.2.1 - g.1 := by
  rcases List.mem_filterMap.mp hg with ⟨p, _, hp⟩
  by_cases hc : p.1 < p.2.start
  · rw [if_pos hc] at hp
    injection hp with h
    rw [← h]
    exact ⟨hc, rfl⟩
  · rw [if_neg hc] at hp
    exact absurd hp (by simp)

theorem print_memory_map_eq (m : MapFileParser) (b : Bool) :
    print_memory_map m b =
      match List.insertionSort byStartAsc (allSections m b) with
      | [] => none
      | s0 :: rest =>
        some { events := (memWalk (s0 :: rest) s0.start).1,
               regionStart := s0.start,
               regionEnd := (List.getLastD (s0 :: rest) s0).stop,
               totalUsed := (memWalk (s0 :: rest) s0.start).2.1,
               totalGaps := (memWalk (s0 :: rest) s0.start).2.2 } := by
  rw [print_memory_map]
  by_cases h : m.section_addresses = []
  · rw [if_pos h]
    have hall : allSections m b = [] := by simp [allSections, h]
    rw [hall]
    rfl
  · rw [if_neg h]

theorem print_memory_map_totalUsed (m : MapFileParser) (b : Bool) (out : MemMapOutput)
    (h : print_memory_map m b = some out) :
    out.totalUsed = (m.section_addresses.map (fun p => p.2.size)).sum := by
  rw [print_memory_map_eq] at h
  cases hs : List.insertionSort byStartAsc (allSections m b) with
  | nil => rw [hs] at h; exact absurd h (by simp)
  | cons s0 rest =>
    rw [hs] at h
    injection h with h
    rw [← h]
    show (memWalk (s0 :: rest) s0.start).2.1 = _
    rw [memWalk_used (s0 :: rest) s0.start, ← hs]
    have hperm : List.Perm (List.insertionSort byStartAsc (allSections m b))
        (allSections m b) :=
      List.perm_insertionSort byStartAsc (allSections m b)
    rw [List.Perm.sum_eq (hperm.map MemSection.size)]
    simp only [allSections, List.map_map]
    rfl

/-! ## Lemmas: one parser step -/

theorem parseStep_header (cur : Option String) (m : MapFileParser) (line : String)
    (n : String) (v s : Nat) (hh : matchMainHeader line.data = some (n, v, s)) :
    parseStep (cur, m) line =
      (some n,
       if 0 < s then
         MapFileParser.mk m.sections (dictSet m.total_sizes n s)
           (dictSet m.section_addresses n
             (AddrInfo.mk v ((searchLoadAddr line.data).getD v) s))
       else m) := by
  have hsw := startsWithSpaceChar_eq_false_of_header line.data (n, v, s) hh
  cases hla : searchLoadAddr line.data with
  | none => simp [parseStep, hh, hsw, hla]
  | some a => simp [parseStep, hh, hsw, hla]

theorem parseStep_subEntry (cs : String) (m : MapFileParser) (line : String)
    (ss : String) (a sz : Nat) (g : List Char)
    (hm : matchSubEntry line.data = some (ss, a, sz, g)) :
    parseStep (some cs, m) line =
      (some cs,
       if 0 < sz then
         MapFileParser.mk
           (dictAppendEntry m.sections cs
             (ContributionEntry.mk ss a sz (String.mk (pyStrip g))))
           m.total_sizes m.section_addresses
       else m) := by
  have hnone := matchMainHeader_eq_none_of_subEntry line.data (ss, a, sz, g) hm
  by_cases hsz : 0 < sz <;> simp [parseStep, hnone, hm, hsz]

theorem parseStep_noMatch (cur : Option String) (m : MapFileParser) (line : String)
    (hmh : matchMainHeader line.data = none)
    (hsm : matchSubEntry line.data = none) :
    parseStep (cur, m) line = (cur, m) := by
  cases cur <;> simp [parseStep, hmh, hsm]

theorem parseStep_noCursor (m : MapFileParser) (line : String)
    (hmh : matchMainHeader line.data = none) :
    parseStep (none, m) line = (none, m) := by
  simp [parseStep, hmh]

/-- The only way a parser step changes the contribution map is through a
successful sub-entry match with positive parsed size while the cursor is
set. -/
theorem parseStep_sections_change (cur : Option String) (m : MapFileParser) (line : String)
    (hne : (parseStep (cur, m) line).2.sections ≠ m.sections) :
    ∃ cs ss a sz g, cur = some cs ∧
      matchSubEntry line.data = some (ss, a, sz, g) ∧ 0 < sz := by
  cases hmh : matchMainHeader line.data with
  | some x =>
    obtain ⟨n, v, s⟩ := x
    rw [parseStep_header cur m line n v s hmh] at hne
    by_cases hs : 0 < s <;> simp [hs] at hne
  | none =>
    cases cur with
    | none => rw [parseStep_noCursor m line hmh] at hne; exact absurd rfl hne
    | some cs =>
      cases hsm : matchSubEntry line.data with
      | none => rw [parseStep_noMatch (some cs) m line hmh hsm] at hne; exact absurd rfl hne
      | some y =>
        obtain ⟨ss, a, sz, g⟩ := y
        by_cases hsz : 0 < sz
        · exact ⟨cs, ss, a, sz, g, rfl, hsm ▸ rfl, hsz⟩
        · rw [parseStep_subEntry cs m line ss a sz g hsm, if_neg hsz] at hne
          exact absurd rfl hne

/-! ## Lemmas: the sub-entry pattern's fourth field -/

theorem tailFile_nil : tailFile [] = none := rfl

theorem tailFile_nonempty (r g : List Char) (h : tailFile r = some g) : g ≠ [] := by
  match r with
  | [] => simp [tailFile] at h
  | c :: rest =>
    by_cases hc : isSpaceCh c = true
    · cases hd : (c :: rest).dropWhile isSpaceCh with
      | cons g0 gs =>
        simp [tailFile, hc, hd] at h
        rw [← h]
        simp
      | nil =>
        cases rest with
        | nil => simp [tailFile, hc, hd] at h
        | cons d ds =>
          simp [tailFile, hc, hd] at h
          rw [← h]
          simp
    · simp [tailFile, hc] at h

theorem matchSubEntry_fourth_nonempty (l : List Char) (ss : String) (a sz : Nat)
    (g : List Char) (h : matchSubEntry l = some (ss, a, sz, g)) : g ≠ [] := by
  rcases matchSubEntry_head_space l (ss, a, sz, g) h with ⟨c, rest, rfl, hc⟩
  cases hp : parseNameAddrSize (List.dropWhile isSpaceCh rest) with
  | none => simp [matchSubEntry, hc, hp] at h
  | some y =>
    obtain ⟨name, addr, size, r⟩ := y
    cases ht : tailFile r with
    | none => simp [matchSubEntry, hc, hp, ht] at h
    | some g0 =>
      simp [matchSubEntry, hc, hp, ht] at h
      have hg : g = g0 := h.2.2.2.symm
      rw [hg]
      exact tailFile_nonempty r g0 ht

/-- A header-shaped line with nothing after its size field is never matched
as a sub-entry: the fourth field is mandatory. -/
theorem matchSubEntry_none_of_empty_rest (c : Char) (rest : List Char)
    (hc : isSpaceCh c = true) (n : List Char) (a s : Nat)
    (hp : parseNameAddrSize ((c :: rest).dropWhile isSpaceCh) = some (n, a, s, [])) :
    matchSubEntry (c :: rest) = none := by
  rw [List.dropWhile_cons] at hp
  simp only [hc, if_true] at hp
  simp [matchSubEntry, hc, hp, tailFile_nil]

/-! ## Lemmas: sizes stored by the parser are positive -/

/-- All sizes in the model are strictly positive: every summary value, every
address-info size, every contribution entry's size. -/
def SizesPos (m : MapFileParser) : Prop :=
  (∀ p ∈ m.total_sizes, 0 < p.2) ∧
  (∀ p ∈ m.section_addresses, 0 < p.2.size) ∧
  (∀ p ∈ m.sections, ∀ e ∈ p.2, 0 < e.size)

theorem mem_dictSet {β : Type _} (d : List (String × β)) (k : String) (v : β)
    (q : String × β) (hq : q ∈ dictSet d k v) : q ∈ d ∨ q = (k, v) := by
  induction d with
  | nil => simp [dictSet] at hq; right; exact hq
  | cons p rest ih =>
    by_cases h : p.1 = k
    · rw [dictSet, if_pos h] at hq
      rcases List.mem_cons.mp hq with h1 | h1
      · right; exact h1
      · left; exact List.mem_cons_of_mem p h1
    · rw [dictSet, if_neg h] at hq
      rcases List.mem_cons.mp hq with h1 | h1
      · left; exact h1 ▸ List.mem_cons_self p rest
      · rcases ih h1 with h2 | h2
        · left; exact List.mem_cons_of_mem p h2
        · right; exact h2

theorem mem_dictAppendEntry (d : List (String × List ContributionEntry)) (k : String)
    (e : ContributionEntry) (q : String × List ContributionEntry)
    (hq : q ∈ dictAppendEntry d k e) :
    q ∈ d ∨ ∃ es₀, q.2 = es₀ ++ [e] ∧ ((q.1, es₀) ∈ d ∨ es₀ = []) := by
  induction d with
  | nil =>
    simp [dictAppendEntry] at hq
    right
    exact ⟨[], by simp [hq], Or.inr rfl⟩
  | cons p rest ih =>
    by_cases h : p.1 = k
    · rw [dictAppendEntry, if_pos h] at hq
      rcases List.mem_cons.mp hq with h1 | h1
      · right
        exact ⟨p.2, by simp [h1], Or.inl (by rw [h1]; exact List.mem_cons_self p rest)⟩
      · left; exact List.mem_cons_of_mem p h1
    · rw [dictAppendEntry, if_neg h] at hq
      rcases List.mem_cons.mp hq with h1 | h1
      · left; exact h1 ▸ List.mem_cons_self p rest
      · rcases ih h1 with h2 | ⟨es₀, he, h3⟩
        · left; exact List.mem_cons_of_mem p h2
        · right
          refine ⟨es₀, he, ?_⟩
          rcases h3 with h3 | h3
          · exact Or.inl (List.mem_cons_of_mem p h3)
          · exact Or.inr h3

theorem parseStep_sizesPos (st : Option String × MapFileParser) (line : String)
    (h : SizesPos st.2) : SizesPos (parseStep st line).2 := by
  obtain ⟨cur, m⟩ := st
  obtain ⟨h1, h2, h3⟩ := h
  cases hmh : matchMainHeader line.data with
  | some x =>
    obtain ⟨n, v, s⟩ := x
    rw [parseStep_header cur m line n v s hmh]
    by_cases hs : 0 < s
    · rw [if_pos hs]
      refine ⟨?_, ?_, h3⟩
      · intro p hp
        rcases mem_dictSet m.total_sizes n s p hp with hin | hin
        · exact h1 p hin
        · rw [hin]; exact hs
      · intro p hp
        rcases mem_dictSet m.section_addresses n _ p hp with hin | hin
        · exact h2 p hin
        · rw [hin]; exact hs
    · rw [if_neg hs]; exact ⟨h1, h2, h3⟩
  | none =>
    cases cur with
    | none => rw [parseStep_noCursor m line hmh]; exact ⟨h1, h2, h3⟩
    | some cs =>
      cases hsm : matchSubEntry line.data with
      | none => rw [parseStep_noMatch (some cs) m line hmh hsm]; exact ⟨h1, h2, h3⟩
      | some y =>
        obtain ⟨ss, a, sz, g⟩ := y
        rw [parseStep_subEntry cs m line ss a sz g hsm]
        by_cases hsz : 0 < sz
        · rw [if_pos hsz]
          refine ⟨h1, h2, ?_⟩
          intro p hp e he
          rcases mem_dictAppendEntry m.sections cs _ p hp with hin | ⟨es₀, hpe, hes⟩
          · exact h3 p hin e he
          · rw [hpe] at he
            rcases List.mem_append.mp he with he1 | he1
            · rcases hes with hes | hes
              · exact h3 (p.1, es₀) hes e he1
              · rw [hes] at he1; simp at he1
            · have : e = ⟨ss, a, sz, String.mk (pyStrip g)⟩ := by simpa using he1
              rw [this]
              exact hsz
        · rw [if_neg hsz]; exact ⟨h1, h2, h3⟩

theorem foldl_parseStep_sizesPos (lines : List String)
    (st : Option String × MapFileParser) (h : SizesPos st.2) :
    SizesPos ((lines.foldl parseStep st)).2 := by
  induction lines generalizing st with
  | nil => exact h
  | cons line rest ih => exact ih (parseStep st line) (parseStep_sizesPos st line h)

/-! ## Claim theorems -/

/-- C2: parsing exactly the three lines `.text 0x00280180 0x000000a0`,
`  .text.foo 0x00280180 0x00000050 a.o`, `  .text.bar 0x002801d0 0x00000050 b.o`
produces a summary in which `.text` has total size 160 bytes, and
`get_top_contributors(".text", 10)` returns `a.o` with 80 bytes and `b.o`
with 80 bytes (here in exactly this order), each reported at 50% of the
top-N sum. -/
theorem claim_C2 :
    dictLookup (get_summary (parse [".text 0x00280180 0x000000a0",
      "  .text.foo 0x00280180 0x00000050 a.o",
      "  .text.bar 0x002801d0 0x00000050 b.o"])) ".text" = some 160 ∧
    get_top_contributors (parse [".text 0x00280180 0x000000a0",
      "  .text.foo 0x00280180 0x00000050 a.o",
      "  .text.bar 0x002801d0 0x00000050 b.o"]) ".text" 10 =
      [("a.o", 80), ("b.o", 80)] ∧
    print_top_contributors (parse [".text 0x00280180 0x000000a0",
      "  .text.foo 0x00280180 0x00000050 a.o",
      "  .text.bar 0x002801d0 0x00000050 b.o"]) ".text" 10 =
      some [ContribRow.mk 1 80 50 "a.o", ContribRow.mk 2 80 50 "b.o"] := by
  refine ⟨by decide, by decide, ?_⟩
  have h : get_top_contributors (parse [".text 0x00280180 0x000000a0",
      "  .text.foo 0x00280180 0x00000050 a.o",
      "  .text.bar 0x002801d0 0x00000050 b.o"]) ".text" 10 =
      [("a.o", 80), ("b.o", 80)] := by decide
  rw [print_top_contributors, h]
  norm_num [List.enum, List.enumFrom]
  exact fun hc => absurd hc (by decide)

/-- C3: in the memory-map rendering, walking the sorted sections with
`prev_end` initialized to the first section's start, a gap is emitted before
a section exactly when its start strictly exceeds `prev_end`, of size
`start - prev_end` (first conjunct, the walk/gap characterization; second
conjunct, `print_memory_map` is exactly that walk started at the first
sorted section's start); in particular for sections `[0,100)` and `[150,200)`
exactly one gap `[100,150)` of size 50 is emitted, total used is 150 and
total gaps is 50 (third conjunct). -/
theorem claim_C3 :
    (∀ (l : List MemSection) (prev : Nat),
      walkGaps (memWalk l prev).1 = expectedGaps prev l) ∧
    (∀ (m : MapFileParser) (b : Bool),
      print_memory_map m b =
        match List.insertionSort byStartAsc (allSections m b) with
        | [] => none
        | s0 :: rest =>
          some (MemMapOutput.mk (memWalk (s0 :: rest) s0.start).1 s0.start
            ((List.getLastD (s0 :: rest) s0).stop)
            (memWalk (s0 :: rest) s0.start).2.1
            (memWalk (s0 :: rest) s0.start).2.2)) ∧
    print_memory_map (MapFileParser.mk [] []
        [(".a", AddrInfo.mk 0 0 100), (".b", AddrInfo.mk 150 150 50)]) true =
      some (MemMapOutput.mk
        [MemEvent.sec (MemSection.mk ".a" 0 100 100 0 0),
         MemEvent.gap 100 150 50,
         MemEvent.sec (MemSection.mk ".b" 150 200 50 150 150)] 0 200 150 50) :=
  ⟨walkGaps_memWalk, print_memory_map_eq, by decide⟩

/-- C9 (implicit): every size stored in the parsed model is strictly
positive: every summary value, every address-info size and every
contribution entry's size, because both storage paths are guarded by a
`size > 0` test. -/
theorem claim_C9 (lines : List String) : SizesPos (parse lines) :=
  foldl_parseStep_sizesPos lines (none, MapFileParser.mk [] [] [])
    ⟨by simp, by simp, by simp⟩

/-- Witness for C9 at a concrete input. -/
theorem claim_C9_witness : 0 < ((".text", 16) : String × Nat).2 :=
  (claim_C9 [".text 0x0 0x10"]).1 (".text", 16) (by decide)

/-- C8: each reporting operation applied to an absent section name or an
empty model returns normally with the explicit "no data" result (`none` in
this model; the source prints an informational message and returns).  All
four reporters are total functions, so no exception can reach the caller. -/
theorem claim_C8 (m : MapFileParser) (s : String) (n k : Nat) :
    (dictLookup m.sections s = none →
      get_top_contributors m s n = [] ∧ print_top_contributors m s n = none ∧
      get_all_contributors m s = [] ∧ print_detailed_breakdown m s k = none) ∧
    (m.total_sizes = [] → print_section_summary m = none) ∧
    (m.section_addresses = [] →
      print_memory_map m true = none ∧ print_memory_map m false = none) := by
  refine ⟨fun h => ?_, fun h => ?_, fun h => ?_⟩
  · have h1 : get_top_contributors m s n = [] := by simp [get_top_contributors, h]
    have h2 : get_all_contributors m s = [] := by simp [get_all_contributors, h]
    exact ⟨h1, by simp [print_top_contributors, h1], h2,
      by simp [print_detailed_breakdown, h2]⟩
  · simp [print_section_summary, get_summary, h]
  · constructor <;> simp [print_memory_map, h]

/-- Witness for C8: the empty model and a never-seen section name. -/
theorem claim_C8_witness :
    (get_top_contributors (MapFileParser.mk [] [] []) ".text" 10 = [] ∧
     print_top_contributors (MapFileParser.mk [] [] []) ".text" 10 = none ∧
     get_all_contributors (MapFileParser.mk [] [] []) ".text" = [] ∧
     print_detailed_breakdown (MapFileParser.mk [] [] []) ".text" 50 = none) ∧
    print_section_summary (MapFileParser.mk [] [] []) = none ∧
    (print_memory_map (MapFileParser.mk [] [] []) true = none ∧
     print_memory_map (MapFileParser.mk [] [] []) false = none) :=
  ⟨(claim_C8 (MapFileParser.mk [] [] []) ".text" 10 50).1 (by decide),
   (claim_C8 (MapFileParser.mk [] [] []) ".text" 10 50).2.1 (by decide),
   (claim_C8 (MapFileParser.mk [] [] []) ".text" 10 50).2.2 (by decide)⟩

/-- C10 (implicit): in the memory-map walk `prev_end` advances
unconditionally to the current section's end: when a section overlaps
(`start ≤ prev_end`) no gap (and no negative gap) is emitted and the walk
continues from the overlapping section's end (second conjunct); every
emitted gap has strictly positive size `start - prev_end` (third conjunct);
and total used bytes is always the sum of all section sizes — as printed,
the sum over all of `section_addresses` — regardless of overlap (first and
fourth conjuncts). -/
theorem claim_C10 :
    (∀ (l : List MemSection) (prev : Nat),
      (memWalk l prev).2.1 = (l.map MemSection.size).sum) ∧
    (∀ (prev : Nat) (s : MemSection) (rest : List MemSection), s.start ≤ prev →
      (memWalk (s :: rest) prev).1 = MemEvent.sec s :: (memWalk rest s.stop).1) ∧
    (∀ (l : List MemSection) (prev : Nat) (g : Nat × Nat × Nat),
      g ∈ walkGaps (memWalk l prev).1 → g.1 < g.2.1 ∧ g.2.2 = g.2.1 - g.1) ∧
    (∀ (m : MapFileParser) (b : Bool) (out : MemMapOutput),
      print_memory_map m b = some out →
      out.totalUsed = (m.section_addresses.map (fun p => p.2.size)).sum) := by
  refine ⟨memWalk_used, ?_, ?_, print_memory_map_totalUsed⟩
  · intro prev s rest hle
    rw [memWalk_cons]
    simp [Nat.not_lt.mpr hle]
  · intro l prev g hg
    rw [walkGaps_memWalk] at hg
    exact mem_expectedGaps prev l g hg

/-- Witness for C10: an overlapping pair emits no gap and continues from the
overlapping section's end; the printed total equals the address-info size
sum. -/
theorem claim_C10_witness :
    (memWalk [MemSection.mk ".x" 50 150 100 50 50] 80).1 =
      MemEvent.sec (MemSection.mk ".x" 50 150 100 50 50) ::
        (memWalk ([] : List MemSection) 150).1 ∧
    (MemMapOutput.mk [MemEvent.sec (MemSection.mk ".x" 0 100 100 0 0)]
        0 100 100 0).totalUsed =
      ((MapFileParser.mk [] [] [(".x", AddrInfo.mk 0 0 100)]).section_addresses.map
        (fun p => p.2.size)).sum :=
  ⟨claim_C10.2.1 80 (MemSection.mk ".x" 50 150 100 50 50) [] (by decide),
   claim_C10.2.2.2 (MapFileParser.mk [] [] [(".x", AddrInfo.mk 0 0 100)]) true
     (MemMapOutput.mk [MemEvent.sec (MemSection.mk ".x" 0 100 100 0 0)] 0 100 100 0)
     (by decide)⟩

/-- C1 counterexample: after a zero-size header `.zero 0x0 0x0` followed by
the sub-entry `  .t 0x0 0x10 a.o`, the summary and address maps indeed have
no `.zero` entry, but the sub-entry is stored under `.zero` in the
contribution map (a `defaultdict`), so top contributors and the detailed
breakdown for `.zero` return it — not the empty / "no data" result the
claim asserts. -/
theorem claim_C1_counterexample :
    dictLookup (parse [".zero 0x0 0x0", "  .t 0x0 0x10 a.o"]).total_sizes ".zero" = none ∧
    dictLookup (parse [".zero 0x0 0x0", "  .t 0x0 0x10 a.o"]).section_addresses ".zero" = none ∧
    get_top_contributors (parse [".zero 0x0 0x0", "  .t 0x0 0x10 a.o"]) ".zero" 10 =
      [("a.o", 16)] ∧
    get_all_contributors (parse [".zero 0x0 0x0", "  .t 0x0 0x10 a.o"]) ".zero" =
      [ContributionEntry.mk ".t" 0 16 "a.o"] ∧
    print_top_contributors (parse [".zero 0x0 0x0", "  .t 0x0 0x10 a.o"]) ".zero" 10 ≠ none ∧
    print_detailed_breakdown (parse [".zero 0x0 0x0", "  .t 0x0 0x10 a.o"]) ".zero" 50 ≠ none := by
  refine ⟨by decide, by decide, by decide, by decide, ?_, ?_⟩
  · have h : get_top_contributors (parse [".zero 0x0 0x0", "  .t 0x0 0x10 a.o"]) ".zero" 10 =
        [("a.o", 16)] := by decide
    simp [print_top_contributors, h]
  · have h : get_all_contributors (parse [".zero 0x0 0x0", "  .t 0x0 0x10 a.o"]) ".zero" =
        [ContributionEntry.mk ".t" 0 16 "a.o"] := by decide
    simp [print_detailed_breakdown, h]

/-- C1 (amended): parsing a zero-size main-section header stores nothing in
the summary / address maps yet sets the cursor to its name; but a
positive-size sub-entry parsed under that cursor IS stored in the
contribution map under that name, and top contributors and the detailed
breakdown for that name then return it (it is recoverable, not dropped). -/
theorem claim_C1_amended (cur : Option String) (m : MapFileParser) (hdr sub : String)
    (n : String) (v : Nat) (hh : matchMainHeader hdr.data = some (n, v, 0))
    (ss : String) (a sz : Nat) (g : List Char)
    (hs : matchSubEntry sub.data = some (ss, a, sz, g)) (hsz : 0 < sz)
    (habs : dictLookup m.sections n = none) :
    parseStep (cur, m) hdr = (some n, m) ∧
    (parseStep (some n, m) sub).2.total_sizes = m.total_sizes ∧
    (parseStep (some n, m) sub).2.section_addresses = m.section_addresses ∧
    get_top_contributors (parseStep (some n, m) sub).2 n 10 =
      [(String.mk (pyStrip g), sz)] ∧
    get_all_contributors (parseStep (some n, m) sub).2 n =
      [ContributionEntry.mk ss a sz (String.mk (pyStrip g))] := by
  have h1 : parseStep (cur, m) hdr = (some n, m) := by
    rw [parseStep_header cur m hdr n v 0 hh]
    simp
  have h2 := parseStep_subEntry n m sub ss a sz g hs
  rw [if_pos hsz] at h2
  have hl : dictLookup
      (dictAppendEntry m.sections n (ContributionEntry.mk ss a sz (String.mk (pyStrip g)))) n =
      some [ContributionEntry.mk ss a sz (String.mk (pyStrip g))] := by
    rw [dictLookup_dictAppendEntry_self, habs]
    rfl
  refine ⟨h1, by rw [h2], by rw [h2], ?_, ?_⟩
  · rw [h2]
    simp [get_top_contributors, hl, dictAdd, List.insertionSort, List.orderedInsert]
  · rw [h2]
    simp [get_all_contributors, hl, List.insertionSort, List.orderedInsert]

/-- Witness for the amended C1 at the counterexample input. -/
theorem claim_C1_amended_witness :
    parseStep (none, MapFileParser.mk [] [] []) ".zero 0x0 0x0" =
      (some ".zero", MapFileParser.mk [] [] []) ∧
    get_top_contributors
        (parseStep (some ".zero", MapFileParser.mk [] [] []) "  .t 0x0 0x10 a.o").2
        ".zero" 10 = [(String.mk (pyStrip ['a', '.', 'o']), 16)] := by
  have h := claim_C1_amended none (MapFileParser.mk [] [] [])
    ".zero 0x0 0x0" "  .t 0x0 0x10 a.o" ".zero" 0 (by decide)
    ".t" 0 16 ['a', '.', 'o'] (by decide) (by decide) (by decide)
  exact ⟨h.1, h.2.2.2.1⟩

/-- C6 counterexample: with lines `.text 0x0 0x10` and `.text 0x20 0x0`,
the second (zero-size) header for the same name does NOT overwrite the
stored entries: the summary keeps size 16 and the address info keeps
vma 0, not the last header's parsed values (vma 32, size 0). -/
theorem claim_C6_counterexample :
    matchMainHeader ".text 0x20 0x0".data = some (".text", 32, 0) ∧
    dictLookup (parse [".text 0x0 0x10", ".text 0x20 0x0"]).total_sizes ".text" = some 16 ∧
    dictLookup (parse [".text 0x0 0x10", ".text 0x20 0x0"]).section_addresses ".text" =
      some (AddrInfo.mk 0 0 16) := by decide

/-- C6 (amended): every main-section header line resets the cursor to its
name; a header with positive parsed size overwrites the stored summary size
and address info for that name (so the last positive-size header wins),
while a zero-size header leaves the previously stored entries intact. -/
theorem claim_C6_amended (cur : Option String) (m : MapFileParser) (hdr : String)
    (n : String) (v s : Nat) (hh : matchMainHeader hdr.data = some (n, v, s)) :
    (parseStep (cur, m) hdr).1 = some n ∧
    dictLookup (parseStep (cur, m) hdr).2.total_sizes n =
      (if 0 < s then some s else dictLookup m.total_sizes n) ∧
    dictLookup (parseStep (cur, m) hdr).2.section_addresses n =
      (if 0 < s then some (AddrInfo.mk v ((searchLoadAddr hdr.data).getD v) s)
       else dictLookup m.section_addresses n) := by
  rw [parseStep_header cur m hdr n v s hh]
  by_cases hs : 0 < s
  · simp [hs, dictLookup_dictSet_self]
  · simp [hs]

/-- Witness for the amended C6: a positive-size duplicate header overwrites
the previously stored entries for its name. -/
theorem claim_C6_witness :
    (parseStep (none, MapFileParser.mk [] [(".text", 16)] [(".text", AddrInfo.mk 0 0 16)])
        ".text 0x20 0x30").1 = some ".text" ∧
    dictLookup (parseStep (none,
        MapFileParser.mk [] [(".text", 16)] [(".text", AddrInfo.mk 0 0 16)])
        ".text 0x20 0x30").2.total_sizes ".text" =
      (if 0 < 48 then some 48
       else dictLookup (MapFileParser.mk [] [(".text", 16)]
         [(".text", AddrInfo.mk 0 0 16)]).total_sizes ".text") ∧
    dictLookup (parseStep (none,
        MapFileParser.mk [] [(".text", 16)] [(".text", AddrInfo.mk 0 0 16)])
        ".text 0x20 0x30").2.section_addresses ".text" =
      (if 0 < 48 then
        some (AddrInfo.mk 32 ((searchLoadAddr ".text 0x20 0x30".data).getD 32) 48)
       else dictLookup (MapFileParser.mk [] [(".text", 16)]
         [(".text", AddrInfo.mk 0 0 16)]).section_addresses ".text") :=
  claim_C6_amended none
    (MapFileParser.mk [] [(".text", 16)] [(".text", AddrInfo.mk 0 0 16)])
    ".text 0x20 0x30" ".text" 32 48 (by decide)

/-- C7 counterexample: the sub-entry line `  .t 0x0 0x10  ` (two trailing
spaces) matches the sub-entry pattern — backtracking leaves one whitespace
character as the mandatory fourth group — and an entry is recorded whose
stored (stripped) file string is EMPTY, refuting "the stored file string is
non-empty". -/
theorem claim_C7_counterexample :
    matchSubEntry "  .t 0x0 0x10  ".data = some (".t", 0, 16, [' ']) ∧
    dictLookup (parse [".text 0x0 0x10", "  .t 0x0 0x10  "]).sections ".text" =
      some [ContributionEntry.mk ".t" 0 16 ""] := by decide

/-- C7 (amended): a contribution entry is recorded only when the sub-entry
pattern matches with a positive parsed size while the cursor is set (first
conjunct); the matched fourth field is always non-empty as matched (second
conjunct) — though it may be whitespace-only, in which case the stored
stripped file string is empty; and a header-shaped line with nothing after
its size field never matches the sub-entry pattern (third conjunct). -/
theorem claim_C7_amended :
    (∀ (cur : Option String) (m : MapFileParser) (line : String),
      (parseStep (cur, m) line).2.sections ≠ m.sections →
      ∃ cs ss a sz g, cur = some cs ∧
        matchSubEntry line.data = some (ss, a, sz, g) ∧ 0 < sz) ∧
    (∀ (l : List Char) (ss : String) (a sz : Nat) (g : List Char),
      matchSubEntry l = some (ss, a, sz, g) → g ≠ []) ∧
    (∀ (c : Char) (rest : List Char), isSpaceCh c = true →
      ∀ (n : List Char) (a s : Nat),
        parseNameAddrSize ((c :: rest).dropWhile isSpaceCh) = some (n, a, s, []) →
        matchSubEntry (c :: rest) = none) :=
  ⟨parseStep_sections_change, matchSubEntry_fourth_nonempty,
   fun c rest hc n a s hp => matchSubEntry_none_of_empty_rest c rest hc n a s hp⟩

/-- Witness for the amended C7 at concrete lines. -/
theorem claim_C7_amended_witness :
    (∃ cs ss a sz g, (some ".text" : Option String) = some cs ∧
      matchSubEntry "  .t 0x0 0x10 a.o".data = some (ss, a, sz, g) ∧ 0 < sz) ∧
    ([' '] : List Char) ≠ [] ∧
    matchSubEntry (' ' :: " .t 0x0 0x10".data) = none :=
  ⟨claim_C7_amended.1 (some ".text") (MapFileParser.mk [] [] [])
      "  .t 0x0 0x10 a.o" (by decide),
   claim_C7_amended.2.1 "  .t 0x0 0x10  ".data ".t" 0 16 [' '] (by decide),
   claim_C7_amended.2.2 ' ' " .t 0x0 0x10".data (by decide) ['.', 't'] 0 16 (by decide)⟩

/-- C5 counterexample: with summary sizes `{.a: 2, .b: 3}` and bar width 40,
the summary view's bar for `.a` has filled width `int((2/3)*40) = 26`
(truncation), while `round(2/3 × 40) = 27`: the filled width is the floor,
not the round, of the exact ratio. -/
theorem claim_C5_counterexample :
    print_section_summary (MapFileParser.mk [] [(".a", 2), (".b", 3)] []) =
      some ([SummaryRow.mk ".b" 3 60 (draw_bar 3 3 40),
             SummaryRow.mk ".a" 2 40 (draw_bar 2 3 40)], 5) ∧
    drawBarFilled 2 3 40 = 26 ∧
    round ((2 : ℚ) / 3 * 40) = 27 ∧ (26 : ℕ) ≠ 27 := by
  refine ⟨?_, by decide, ?_, by decide⟩
  · rw [print_section_summary]
    norm_num [get_summary, List.insertionSort, List.orderedInsert, bySizeDesc, maxValues]
    decide
  · norm_num [round_eq]

/-- C5 (amended): in the summary view every row's bar is drawn with filled
width `⌊size / max_size × bar_width⌋` (the floor, from `int()` truncation,
not the round); consequently `0 ≤ filled ≤ bar_width` always, and
`filled = bar_width` exactly for a row whose size equals the maximum
summary size. -/
theorem claim_C5_amended (m : MapFileParser) (hpos : ∀ p ∈ m.total_sizes, 0 < p.2)
    (rows : List SummaryRow) (total : Nat)
    (h : print_section_summary m = some (rows, total)) (row : SummaryRow)
    (hrow : row ∈ rows) :
    row.bar = draw_bar row.size (maxValues m.total_sizes) 40 ∧
    drawBarFilled row.size (maxValues m.total_sizes) 40 =
      Nat.floor ((row.size : ℚ) / (maxValues m.total_sizes : ℚ) * 40) ∧
    drawBarFilled row.size (maxValues m.total_sizes) 40 ≤ 40 ∧
    (drawBarFilled row.size (maxValues m.total_sizes) 40 = 40 ↔
      row.size = maxValues m.total_sizes) := by
  by_cases hemp : get_summary m = []
  · rw [print_section_summary, if_pos hemp] at h
    exact absurd h (by simp)
  · rw [print_section_summary, if_neg hemp] at h
    injection h with h
    have hrows := congrArg Prod.fst h
    simp only at hrows
    rw [← hrows] at hrow
    rcases List.mem_map.mp hrow with ⟨p, hpmem, hpeq⟩
    have hp : p ∈ m.total_sizes := by
      have := (List.mem_insertionSort bySizeDesc).mp hpmem
      simpa [get_summary] using this
    have hsize : row.size = p.2 := by rw [← hpeq]
    have hbar : row.bar = draw_bar p.2 (maxValues m.total_sizes) 40 := by
      rw [← hpeq]
      simp [get_summary]
    have hmx : maxValues m.total_sizes = (m.total_sizes.map (·.2)).foldl Nat.max 0 := by
      rw [maxValues, if_neg (by simpa [get_summary] using hemp)]
    have hle : p.2 ≤ maxValues m.total_sizes := by
      rw [hmx]
      exact le_foldl_max _ p.2 0 (List.mem_map_of_mem (·.2) hp)
    have h0 : 0 < maxValues m.total_sizes :=
      Nat.lt_of_lt_of_le (hpos p hp) hle
    have h40 : (0 : Nat) < 40 := by decide
    refine ⟨by rw [hbar, hsize], ?_, ?_, ?_⟩
    · rw [hsize]
      have hcast : ((p.2 : ℚ) / (maxValues m.total_sizes : ℚ) * 40) =
          (((p.2 * 40 : ℕ) : ℚ)) / ((maxValues m.total_sizes : ℕ) : ℚ) := by
        push_cast
        ring
      rw [hcast, Nat.floor_div_nat, Nat.floor_natCast]
      rfl
    · rw [hsize]
      calc p.2 * 40 / maxValues m.total_sizes
          ≤ maxValues m.total_sizes * 40 / maxValues m.total_sizes :=
            Nat.div_le_div_right (Nat.mul_le_mul_right 40 hle)
        _ = 40 := Nat.mul_div_cancel_left 40 h0
    · rw [hsize]
      constructor
      · intro hfull
        have h1 : 40 ≤ p.2 * 40 / maxValues m.total_sizes := hfull.ge
        have h2 : 40 * maxValues m.total_sizes ≤ p.2 * 40 :=
          (Nat.le_div_iff_mul_le h0).mp h1
        have h3 : maxValues m.total_sizes * 40 ≤ p.2 * 40 := by
          rw [Nat.mul_comm] at h2
          exact h2
        exact Nat.le_antisymm hle (Nat.le_of_mul_le_mul_right h3 h40)
      · intro hfull
        rw [hfull]
        exact Nat.mul_div_cancel_left 40 h0

/-- Witness for the amended C5 at the counterexample model. -/
theorem claim_C5_amended_witness :
    (SummaryRow.mk ".a" 2 40 (draw_bar 2 3 40)).bar =
      draw_bar (SummaryRow.mk ".a" 2 40 (draw_bar 2 3 40)).size
        (maxValues [(".a", 2), (".b", 3)]) 40 ∧
    drawBarFilled 2 (maxValues [(".a", 2), (".b", 3)]) 40 =
      Nat.floor ((2 : ℚ) / (maxValues [(".a", 2), (".b", 3)] : ℚ) * 40) ∧
    drawBarFilled 2 (maxValues [(".a", 2), (".b", 3)]) 40 ≤ 40 ∧
    (drawBarFilled 2 (maxValues [(".a", 2), (".b", 3)]) 40 = 40 ↔
      2 = maxValues [(".a", 2), (".b", 3)]) := by
  have h : print_section_summary (MapFileParser.mk [] [(".a", 2), (".b", 3)] []) =
      some ([SummaryRow.mk ".b" 3 60 (draw_bar 3 3 40),
             SummaryRow.mk ".a" 2 40 (draw_bar 2 3 40)], 5) := by
    rw [print_section_summary]
    norm_num [get_summary, List.insertionSort, List.orderedInsert, bySizeDesc, maxValues]
    decide
  exact claim_C5_amended (MapFileParser.mk [] [(".a", 2), (".b", 3)] []) (by decide)
    _ 5 h (SummaryRow.mk ".a" 2 40 (draw_bar 2 3 40)) (by simp)

/-- C4: `get_top_contributors` returns at most N groups, sorted descending
by per-file summed size; every returned pair carries exactly the sum of the
section's entry sizes for its file, a file occurring among the section's
entries; and each printed percentage is computed against the sum of the
returned (limited) top-N sizes, not the section grand total. -/
theorem claim_C4 (m : MapFileParser) (s : String) (N : Nat) :
    (get_top_contributors m s N).length ≤ N ∧
    List.Sorted bySizeDesc (get_top_contributors m s N) ∧
    (∀ p ∈ get_top_contributors m s N,
      p.2 = sumFilter p.1 ((dictLookup m.sections s).getD []) ∧
      p.1 ∈ ((dictLookup m.sections s).getD []).map ContributionEntry.file) ∧
    (∀ row ∈ (print_top_contributors m s N).getD [],
      row.percentage =
        if 0 < ((get_top_contributors m s N).map (·.2)).sum then
          (row.size : ℚ) /
            (((((get_top_contributors m s N).map (·.2)).sum : ℕ)) : ℚ) * 100
        else 0) := by
  have hpct : ∀ row ∈ (print_top_contributors m s N).getD [],
      row.percentage =
        if 0 < ((get_top_contributors m s N).map (·.2)).sum then
          (row.size : ℚ) /
            (((((get_top_contributors m s N).map (·.2)).sum : ℕ)) : ℚ) * 100
        else 0 := by
    by_cases hc : get_top_contributors m s N = []
    · simp [print_top_contributors, hc]
    · intro row hrow
      rw [print_top_contributors] at hrow
      rw [if_neg hc] at hrow
      simp only [Option.getD_some] at hrow
      rcases List.mem_map.mp hrow with ⟨z, _, hzeq⟩
      rw [← hzeq]
  cases hl : dictLookup m.sections s with
  | none =>
    have hr : get_top_contributors m s N = [] := by simp [get_top_contributors, hl]
    refine ⟨by rw [hr]; exact Nat.zero_le N, by rw [hr]; exact List.sorted_nil, ?_, hpct⟩
    intro p hp
    rw [hr] at hp
    simp at hp
  | some items =>
    have hr : get_top_contributors m s N =
        (List.insertionSort bySizeDesc
          (items.foldl (fun d it => dictAdd d it.file it.size) [])).take N := by
      simp [get_top_contributors, hl]
    refine ⟨?_, ?_, ?_, hpct⟩
    · rw [hr]
      exact List.length_take_le N _
    · rw [hr]
      exact (List.sorted_insertionSort bySizeDesc _).sublist (List.take_sublist N _)
    · intro p hp
      rw [hr] at hp
      have hp2 : p ∈ List.insertionSort bySizeDesc
          (items.foldl (fun d it => dictAdd d it.file it.size) []) :=
        List.take_subset N _ hp
      have hp3 : p ∈ items.foldl (fun d it => dictAdd d it.file it.size) [] :=
        (List.mem_insertionSort bySizeDesc).mp hp2
      have := mem_groupFold items p hp3
      simpa using this

/-- Witness for C4's grouping part at a concrete model. -/
theorem claim_C4_witness :
    (("a.o", 80) : String × Nat).2 =
      sumFilter ("a.o", 80).1
        ((dictLookup (MapFileParser.mk
          [(".t", [ContributionEntry.mk ".t.f" 0 80 "a.o"])] [] []).sections ".t").getD []) ∧
    (("a.o", 80) : String × Nat).1 ∈
      ((dictLookup (MapFileParser.mk
        [(".t", [ContributionEntry.mk ".t.f" 0 80 "a.o"])] [] []).sections ".t").getD
          []).map ContributionEntry.file :=
  (claim_C4 (MapFileParser.mk [(".t", [ContributionEntry.mk ".t.f" 0 80 "a.o"])] [] [])
    ".t" 10).2.2.1 ("a.o", 80) (by decide)

end GccMapVis
